import Mathlib

/-
Verification of the feynman-multiplicity diagram enumerator.

The definitions below are a shallow embedding of src/feynman-multiplicity.py.
Python object identity is modelled by indices:
  * a vertex is identified by its position in the diagram's vertex list;
  * a line is identified by its position in the diagram's line list
    (every `Line(...)` call creates a fresh object, and lines are only ever
    appended, so the position is a faithful identity).
`Vertex.lines` in the source is a Python `set` of `Line` objects compared by
identity; it is modelled as a `Finset Nat` of line indices.  In particular
adding the same line twice (the second occupation of a self-loop in
`Diagram.add_line`) leaves the set unchanged, exactly as in Python.
-/

set_option maxRecDepth 8000

inductive VertexPayload where
  | internal (label : String) (original_label : String)
  | external (incoming : Bool) (momentum : String)
deriving DecidableEq

structure Vertex where
  total_connections : Nat
  lines : Finset Nat
  payload : VertexPayload
deriving DecidableEq

instance : Inhabited Vertex := ⟨⟨0, ∅, .internal "" ""⟩⟩

/-- Source `Vertex.fully_connected`: `len(self.lines) >= self.total_connections`. -/
def Vertex.fully_connected (v : Vertex) : Bool :=
  decide (v.total_connections ≤ v.lines.card)

/-- Source `Vertex.add_connection(line, is_end_vertex)`: returns the weight
contribution and the updated vertex (Python mutates in place). -/
def Vertex.add_connection (v : Vertex) (line : Nat) (is_end_vertex : Bool) :
    Nat × Vertex :=
  if v.fully_connected then (0, v)
  else
    let multiplier := v.total_connections - v.lines.card
    (if is_end_vertex then multiplier else 1,
      { v with lines := insert line v.lines })

/-- Label of an internal vertex (source `InternalVertex.label`).  The source
only ever reads `.label` on internal vertices; the external branch is never
exercised and returns the momentum for totality. -/
def vertex_label (v : Vertex) : String :=
  match v.payload with
  | .internal l _ => l
  | .external _ m => m

/-- Relabel an internal vertex (source assignment `vertex.label = ...`);
external vertices have no label field and are returned unchanged. -/
def set_label (v : Vertex) (s : String) : Vertex :=
  { v with payload :=
      match v.payload with
      | .internal _ o => .internal s o
      | p => p }

/-- Source `InternalVertex.__init__`: fresh vertex, `original_label = label`. -/
def mkInternalVertex (total_connections : Nat) (label : String) : Vertex :=
  ⟨total_connections, ∅, .internal label label⟩

/-- Python dict lookup on a string-keyed association list. -/
def dictGet (d : List (String × Nat)) (k : String) : Option Nat :=
  (d.find? (fun p => p.1 == k)).map Prod.snd

/-- Python dict assignment `d[k] = v`. -/
def dictSet (d : List (String × Nat)) (k : String) (v : Nat) :
    List (String × Nat) :=
  if (d.find? (fun p => p.1 == k)).isSome then
    d.map (fun p => if p.1 == k then (k, v) else p)
  else d ++ [(k, v)]

/-- Second pass of `make_internal_vertices_distinguishable`: `cd` is the
frozen copy (`copy_dict`), the first argument the mutating `label_dict`. -/
def relabel_pass (cd : List (String × Nat)) :
    List (String × Nat) → List Vertex → List Vertex
  | _, [] => []
  | ld, v :: vs =>
    let l := vertex_label v
    let count := (dictGet cd l).getD 0
    if 1 < count then
      let r := (dictGet ld l).getD 0
      set_label v (l ++ toString (1 + count - r)) ::
        relabel_pass cd (dictSet ld l (r - 1)) vs
    else v :: relabel_pass cd ld vs

/-- Source `make_internal_vertices_distinguishable`. -/
def make_internal_vertices_distinguishable (vertices : List Vertex) :
    List Vertex :=
  let label_dict := vertices.foldl
    (fun d v => dictSet d (vertex_label v)
      (match dictGet d (vertex_label v) with
       | none => 1
       | some c => 1 + c)) []
  relabel_pass label_dict label_dict vertices

/-- Source module-level `external_vertices` list, parametrised by the two
momentum-label sequences of the settings block (capacity 1 hard-coded, as in
`InVertex(1, p)` / `OutVertex(1, q)`). -/
def external_vertices (momenta_in momenta_out : List String) : List Vertex :=
  momenta_in.map (fun p => ⟨1, ∅, .external true p⟩) ++
    momenta_out.map (fun q => ⟨1, ∅, .external false q⟩)

structure Line where
  vertex_start : Nat
  vertex_end : Nat
deriving DecidableEq

instance : Inhabited Line := ⟨⟨0, 0⟩⟩

/-- Source `Line.other_vertex` (identity comparison `vertex is vertex_end`). -/
def Line.other_vertex (l : Line) (v : Nat) : Nat :=
  if v = l.vertex_end then l.vertex_start else l.vertex_end

structure Diagram where
  vertices : List Vertex
  vertex_count : Nat
  is_valid : Bool
  iters_remaining : Nat
  lines : List Line
  multiplier : Nat
deriving DecidableEq

/-- Source `Diagram.total_vertex_connections` (a running sum over vertices). -/
def total_vertex_connections (vs : List Vertex) : Nat :=
  vs.foldl (fun count v => count + v.total_connections) 0

/-- Source `Diagram.__init__(internal_vertices)`. -/
def Diagram.init (externals internal_vertices : List Vertex) : Diagram :=
  let ivs := make_internal_vertices_distinguishable internal_vertices
  let vertices := externals ++ ivs
  let connections := total_vertex_connections vertices
  { vertices := vertices
    vertex_count := vertices.length
    is_valid := decide (connections % 2 = 0)
    iters_remaining := connections / 2
    lines := []
    multiplier := 1 }

/-- The same construction with the internal vertices kept under their
original labels (no disambiguation pass); baseline for the claim that the
display pass never affects identity, adjacency or counting. -/
def Diagram.init_raw (externals internal_vertices : List Vertex) : Diagram :=
  let vertices := externals ++ internal_vertices
  let connections := total_vertex_connections vertices
  { vertices := vertices
    vertex_count := vertices.length
    is_valid := decide (connections % 2 = 0)
    iters_remaining := connections / 2
    lines := []
    multiplier := 1 }

/-- Source `Diagram.add_line(start_index, end_index)`.  The new line's index
is its position in the line list.  The start vertex is updated first, then
the end vertex; on a self-loop the second update sees the first one, as the
two Python calls mutate the same object. -/
def Diagram.add_line (d : Diagram) (start_index end_index : Nat) : Diagram :=
  let lineIdx := d.lines.length
  let line : Line := ⟨start_index, end_index⟩
  let lines := d.lines ++ [line]
  let start_vertex := d.vertices.getD start_index default
  let r1 := start_vertex.add_connection lineIdx false
  let vs1 := d.vertices.set start_index r1.2
  let end_vertex := vs1.getD end_index default
  let r2 := end_vertex.add_connection lineIdx true
  let vs2 := vs1.set end_index r2.2
  { d with
      vertices := vs2
      lines := lines
      multiplier := d.multiplier * r1.1 * r2.1 }

/-- The kept child of one growth step: clone, add the line, decrement the
remaining counter (the body of the `if diagram.multiplier > 0` branch of
`Diagram.iterate`). -/
def grow_step (d : Diagram) (s e : Nat) : Diagram :=
  let c := d.add_line s e
  { c with iters_remaining := c.iters_remaining - 1 }

/-- Source `Diagram.iterate`: returns `(unfinished, diagrams)`. -/
def Diagram.iterate (d : Diagram) : Bool × List Diagram :=
  if 0 < d.iters_remaining then
    match (List.range d.vertex_count).find?
        (fun i => !(d.vertices.getD i default).fully_connected) with
    | none => (true, [])
    | some start_index =>
      (true,
        (List.range' start_index (d.vertex_count - start_index)).filterMap
          (fun end_index =>
            let c := d.add_line start_index end_index
            if 0 < c.multiplier then
              some { c with iters_remaining := c.iters_remaining - 1 }
            else none))
  else (false, [d])

/-- One pass of the worklist loop in `main`: iterate every diagram of the
previous generation, concatenating the results and or-ing the flags. -/
def diagramsPass (ds : List Diagram) : Bool × List Diagram :=
  ds.foldl
    (fun acc d =>
      let r := d.iterate
      (acc.1 || r.1, acc.2 ++ r.2)) (false, [])

/-- The `while iter_flag` worklist loop of `main`, with explicit fuel; the
source loop always halts, and `searchFuel` passes are proved sufficient
below (`searchLoop_iters_zero`). -/
def searchLoop : Nat → List Diagram → List Diagram
  | 0, ds => ds
  | fuel + 1, ds =>
    let r := diagramsPass ds
    if r.1 then searchLoop fuel r.2 else r.2

/-- Largest remaining counter in a generation. -/
def maxIters (ds : List Diagram) : Nat :=
  ds.foldl (fun m d => max m d.iters_remaining) 0

def searchFuel (ds : List Diagram) : Nat :=
  1 + maxIters ds

/-- The growth search as run by `main` on a list of seed diagrams. -/
def seed_search (seeds : List Diagram) : List Diagram :=
  searchLoop (searchFuel seeds) seeds

/-- Helper for `combosWR`: the catalog recursion of one order level, with
`next` the enumeration of the previous order. -/
def combosWR_aux (next : List (Nat × String) → List (List (Nat × String))) :
    List (Nat × String) → List (List (Nat × String))
  | [] => []
  | x :: xs => (next (x :: xs)).map (fun ys => x :: ys) ++ combosWR_aux next xs

/-- Source `itertools.combinations_with_replacement(vertex_types, order)`,
in its enumeration order (indices nondecreasing, lexicographic); the order
argument comes first so that the recursion is structural. -/
def combosWR : Nat → List (Nat × String) → List (List (Nat × String))
  | 0, _ => [[]]
  | n + 1, l => combosWR_aux (combosWR n) l

/-- Static configuration: the SETTINGS block of the source. -/
structure Config where
  momenta_in : List String
  momenta_out : List String
  vertex_types : List (Nat × String)
  perturbation_order : Nat
  normal_ordering : Bool
  fully_connected : Bool
  no_vacuum_pieces : Bool
deriving DecidableEq

/-- Seed generation in `main`: one diagram per multiset of internal vertex
types of each order `0..perturbation_order`, kept only when `is_valid`. -/
def initial_diagrams (cfg : Config) : List Diagram :=
  (List.range (1 + cfg.perturbation_order)).flatMap
    (fun order =>
      (combosWR order cfg.vertex_types).filterMap
        (fun perm =>
          let d := Diagram.init
            (external_vertices cfg.momenta_in cfg.momenta_out)
            (perm.map (fun cl => mkInternalVertex cl.1 cl.2))
          if d.is_valid then some d else none))

/-- Source `Vertex.line_sharing_vertices` for the vertex at index `i`. -/
def line_sharing_vertices (d : Diagram) (i : Nat) : Finset Nat :=
  (d.vertices.getD i default).lines.image
    (fun l => (d.lines.getD l default).other_vertex i)

/-- Neighbour set of vertex `v`, enumerated in increasing index order.
Python iterates the neighbour set in unspecified order; increasing order is
chosen here (the traversed set computed below does not depend on it).  In
every diagram built by the program the endpoints of a line are existing
vertex indices, so bounding the enumeration by the vertex count loses
nothing. -/
def neighbor_list (d : Diagram) (v : Nat) : List Nat :=
  (List.range d.vertices.length).filter
    (fun j => decide (j ∈ line_sharing_vertices d v))

/-- One pass of the BFS loop in `Vertex.graph_connected_vertices`; state is
(traversed set, current list, iteration flag). -/
def gcv_pass (d : Diagram) (frontier : List Nat)
    (st : Finset Nat × List Nat × Bool) : Finset Nat × List Nat × Bool :=
  frontier.foldl
    (fun st v =>
      let tr := insert v st.1
      (neighbor_list d v).foldl
        (fun st2 nb =>
          if nb ∈ st2.1 then st2 else (st2.1, st2.2.1 ++ [nb], true))
        (tr, st.2.1, st.2.2))
    st

/-- The `while iter_flag` loop of `Vertex.graph_connected_vertices`. -/
def gcv_loop (d : Diagram) : Nat → List Nat → Finset Nat → Finset Nat
  | 0, _, traversed => traversed
  | fuel + 1, frontier, traversed =>
    let r := gcv_pass d frontier (traversed, [], false)
    if r.2.2 then gcv_loop d fuel r.2.1 r.1 else r.1

/-- Source `Vertex.graph_connected_vertices` for the vertex at index `i`.
The source loop adds at least one new vertex per pass while its flag stays
set, so `d.vertices.length + 1` passes always reach the fixed point. -/
def graph_connected_vertices (d : Diagram) (i : Nat) : Finset Nat :=
  gcv_loop d (d.vertices.length + 1) [i] ∅

/-- Source `Diagram.has_one_vertex_loop` (identity comparison on indices). -/
def Diagram.has_one_vertex_loop (d : Diagram) : Bool :=
  d.lines.any (fun l => l.vertex_start == l.vertex_end)

def is_external_vertex (v : Vertex) : Bool :=
  match v.payload with
  | .internal _ _ => false
  | .external _ _ => true

/-- Source `Diagram.has_vacuum_piece`. -/
def Diagram.has_vacuum_piece (d : Diagram) : Bool :=
  (List.range d.vertices.length).any
    (fun i =>
      !decide (∃ j ∈ graph_connected_vertices d i,
        is_external_vertex (d.vertices.getD j default) = true))

/-- Source `Diagram.is_fully_connected`. -/
def Diagram.is_fully_connected (d : Diagram) : Bool :=
  if d.vertices.length = 0 then false
  else decide ((graph_connected_vertices d 0).card = d.vertices.length)

/-- The filter block of `main` (the three structural predicates, applied in
source order; the sequential `if valid and flag` chain is a conjunction). -/
def filtered_diagrams (cfg : Config) (ds : List Diagram) : List Diagram :=
  ds.filter
    (fun d =>
      (!cfg.normal_ordering || !d.has_one_vertex_loop) &&
      (!cfg.fully_connected || d.is_fully_connected) &&
      (!cfg.no_vacuum_pieces || !d.has_vacuum_piece))

/-- All diagrams emitted by the program for a configuration. -/
def emitted (cfg : Config) : List Diagram :=
  filtered_diagrams cfg (seed_search (initial_diagrams cfg))

/-- Source `ExternalVertex.__str__` / `InternalVertex.__str__`. -/
def vertex_str (v : Vertex) : String :=
  match v.payload with
  | .internal l _ => l
  | .external incoming m => (if incoming then "" else "-") ++ m

/-- Source `Line.__str__` (the line holds vertex references; here they are
resolved through the owning diagram). -/
def line_str (d : Diagram) (l : Line) : String :=
  "\x7b" ++ vertex_str (d.vertices.getD l.vertex_start default) ++ "," ++
    vertex_str (d.vertices.getD l.vertex_end default) ++ "\x7d"

/-- Source `Diagram.__str__`. -/
def Diagram.str (d : Diagram) : String :=
  let s := if 1 < d.multiplier then toString d.multiplier else ""
  (d.lines.foldl (fun acc l => acc ++ line_str d l) (s ++ "⟨")) ++ "⟩"

/-- The lines printed by `main`, in emission order. -/
def program_output (cfg : Config) : List String :=
  (emitted cfg).map Diagram.str

/-- The settings block of the source file. -/
def sourceConfig : Config :=
  { momenta_in := ["p1", "p2"]
    momenta_out := ["q1", "q2"]
    vertex_types := [(3, "g"), (4, "λ")]
    perturbation_order := 2
    normal_ordering := true
    fully_connected := true
    no_vacuum_pieces := true }

/-
Verification-layer definitions.
-/

/-- Number of half-edges (slots) consumed at vertex `i` in the sense of the
specification: every line endpoint consumes one slot, so a self-loop
consumes two slots of its vertex. -/
def endpoint_count (d : Diagram) (i : Nat) : Nat :=
  d.lines.foldl
    (fun acc l =>
      acc + (if l.vertex_start = i then 1 else 0) +
        (if l.vertex_end = i then 1 else 0)) 0

/-- One step of the growth search: `d'` is among the diagrams produced by
`d.iterate`. -/
def DStep (d d' : Diagram) : Prop :=
  d' ∈ (d.iterate).2

instance (d d' : Diagram) : Decidable (DStep d d') :=
  inferInstanceAs (Decidable (d' ∈ (d.iterate).2))

/-- Reachability by the growth search. -/
inductive Reach : Diagram → Diagram → Prop where
  | refl (d : Diagram) : Reach d d
  | tail {d e f : Diagram} : Reach d e → DStep e f → Reach d f

/-- Erase all internal labels (display data); identity, adjacency and the
counters are untouched. -/
def strip_vertex (v : Vertex) : Vertex :=
  { v with payload :=
      match v.payload with
      | .internal _ _ => .internal "" ""
      | p => p }

def strip_diagram (d : Diagram) : Diagram :=
  { d with vertices := d.vertices.map strip_vertex }

/-- Configuration of the parity-boundary property: one incoming and one
outgoing external vertex, empty catalog, order 0. -/
def cfg7 (a b c : Bool) : Config :=
  { momenta_in := ["p1"], momenta_out := ["q1"], vertex_types := [],
    perturbation_order := 0, normal_ordering := a, fully_connected := b,
    no_vacuum_pieces := c }

def seed7 : Diagram :=
  Diagram.init (external_vertices ["p1"] ["q1"]) []

def d7 : Diagram :=
  grow_step seed7 0 1

/-- Configuration of the odd-total property: one incoming external vertex
only, empty catalog, order 0. -/
def cfg8 (a b c : Bool) : Config :=
  { momenta_in := ["p1"], momenta_out := [], vertex_types := [],
    perturbation_order := 0, normal_ordering := a, fully_connected := b,
    no_vacuum_pieces := c }

/-- Configuration of the disconnected-rejection property: two incoming and
two outgoing external vertices, empty catalog, order 0, full-connectivity
filter enabled. -/
def cfg9 (a c : Bool) : Config :=
  { momenta_in := ["p1", "p2"], momenta_out := ["q1", "q2"],
    vertex_types := [], perturbation_order := 0, normal_ordering := a,
    fully_connected := true, no_vacuum_pieces := c }

/-- Catalog with one capacity-4 type, order 1 (all filters off). -/
def cfgC3 : Config :=
  { momenta_in := ["p1", "p2"], momenta_out := ["q1", "q2"],
    vertex_types := [(4, "λ")], perturbation_order := 1,
    normal_ordering := false, fully_connected := false,
    no_vacuum_pieces := false }

def seedC3 : Diagram :=
  Diagram.init (external_vertices ["p1", "p2"] ["q1", "q2"])
    [mkInternalVertex 4 "λ"]

def c3s1 : Diagram := grow_step seedC3 0 1
def c3s2 : Diagram := grow_step c3s1 2 3
def c3s3 : Diagram := grow_step c3s2 4 4
def badC3 : Diagram := grow_step c3s3 4 4

/-- Catalog with one capacity-4 type, order 2 (all filters off). -/
def cfgC2 : Config :=
  { momenta_in := ["p1", "p2"], momenta_out := ["q1", "q2"],
    vertex_types := [(4, "λ")], perturbation_order := 2,
    normal_ordering := false, fully_connected := false,
    no_vacuum_pieces := false }

def seedC2 : Diagram :=
  Diagram.init (external_vertices ["p1", "p2"] ["q1", "q2"])
    [mkInternalVertex 4 "λ", mkInternalVertex 4 "λ"]

def c2s1 : Diagram := grow_step seedC2 0 1
def c2s2 : Diagram := grow_step c2s1 2 3
def c2s3 : Diagram := grow_step c2s2 4 4
def c2s4 : Diagram := grow_step c2s3 4 5
def c2s5 : Diagram := grow_step c2s4 4 5
def badC2 : Diagram := grow_step c2s5 4 5

/-- Catalog with one capacity-3 type, order 2 (all filters off). -/
def cfgC4 : Config :=
  { momenta_in := ["p1", "p2"], momenta_out := ["q1", "q2"],
    vertex_types := [(3, "g")], perturbation_order := 2,
    normal_ordering := false, fully_connected := false,
    no_vacuum_pieces := false }

def seedC4 : Diagram :=
  Diagram.init (external_vertices ["p1", "p2"] ["q1", "q2"])
    [mkInternalVertex 3 "g", mkInternalVertex 3 "g"]

def c4s1 : Diagram := grow_step seedC4 0 1
def c4s2 : Diagram := grow_step c4s1 2 3
def c4s3 : Diagram := grow_step c4s2 4 5
def c4d : Diagram := grow_step c4s3 4 5

theorem add_line_iters (d : Diagram) (s e : Nat) :
    (d.add_line s e).iters_remaining = d.iters_remaining := rfl

theorem add_line_lines_len (d : Diagram) (s e : Nat) :
    (d.add_line s e).lines.length = d.lines.length + 1 := by
  simp [Diagram.add_line]

theorem grow_step_iters (d : Diagram) (s e : Nat) :
    (grow_step d s e).iters_remaining = d.iters_remaining - 1 := rfl

theorem grow_step_lines_len (d : Diagram) (s e : Nat) :
    (grow_step d s e).lines.length = d.lines.length + 1 := by
  simp [grow_step, Diagram.add_line]

theorem grow_step_multiplier (d : Diagram) (s e : Nat) :
    (grow_step d s e).multiplier = (d.add_line s e).multiplier := rfl

theorem grow_step_vertices (d : Diagram) (s e : Nat) :
    (grow_step d s e).vertices = (d.add_line s e).vertices := rfl

theorem add_connection_total (v : Vertex) (l : Nat) (b : Bool) :
    (v.add_connection l b).2.total_connections = v.total_connections := by
  unfold Vertex.add_connection
  split <;> rfl

theorem tvc_aux : ∀ (vs : List Vertex) (a : Nat),
    vs.foldl (fun count v => count + v.total_connections) a
      = a + (vs.map (fun v => v.total_connections)).sum
  | [], a => by simp
  | v :: vs, a => by
    simp [List.foldl_cons, tvc_aux vs, List.sum_cons]
    omega

theorem tvc_eq_sum (vs : List Vertex) :
    total_vertex_connections vs = (vs.map (fun v => v.total_connections)).sum := by
  unfold total_vertex_connections
  simpa using tvc_aux vs 0

theorem tvc_set : ∀ (vs : List Vertex) (i : Nat) (v : Vertex),
    v.total_connections = (vs.getD i default).total_connections →
    total_vertex_connections (vs.set i v) = total_vertex_connections vs
  | [], i, v, _ => by simp
  | x :: xs, 0, v, h => by
    simp only [List.getD_cons_zero] at h
    simp [tvc_eq_sum, h]
  | x :: xs, i + 1, v, h => by
    simp only [List.getD_cons_succ] at h
    have := tvc_set xs i v h
    simp only [List.set_cons_succ]
    simp [tvc_eq_sum] at this ⊢
    omega

theorem add_line_total (d : Diagram) (s e : Nat) :
    total_vertex_connections (d.add_line s e).vertices
      = total_vertex_connections d.vertices := by
  show total_vertex_connections
      ((d.vertices.set s ((d.vertices.getD s default).add_connection
          d.lines.length false).2).set e
        ((((d.vertices.set s ((d.vertices.getD s default).add_connection
          d.lines.length false).2).getD e default).add_connection
          d.lines.length true)).2)
      = total_vertex_connections d.vertices
  rw [tvc_set _ _ _ (add_connection_total _ _ _),
    tvc_set _ _ _ (add_connection_total _ _ _)]

theorem mem_iterate_cases {d d' : Diagram} (h : d' ∈ (d.iterate).2) :
    (d.iters_remaining = 0 ∧ d' = d) ∨
    (0 < d.iters_remaining ∧
      ∃ s e, 0 < (d.add_line s e).multiplier ∧ d' = grow_step d s e) := by
  unfold Diagram.iterate at h
  by_cases hit : 0 < d.iters_remaining
  · rw [if_pos hit] at h
    right
    refine ⟨hit, ?_⟩
    rcases hfind : (List.range d.vertex_count).find?
        (fun i => !(d.vertices.getD i default).fully_connected) with _ | s
    · rw [hfind] at h
      simp at h
    · rw [hfind] at h
      simp only [List.mem_filterMap] at h
      obtain ⟨e, _, heq⟩ := h
      refine ⟨s, e, ?_⟩
      by_cases hm : 0 < (d.add_line s e).multiplier
      · rw [if_pos hm] at heq
        exact ⟨hm, (Option.some.injEq _ _ ▸ heq).symm⟩
      · rw [if_neg hm] at heq
        exact absurd heq (by simp)
  · rw [if_neg hit] at h
    simp at h
    exact Or.inl ⟨by omega, h⟩

theorem iterate_fst (d : Diagram) :
    (d.iterate).1 = decide (0 < d.iters_remaining) := by
  unfold Diagram.iterate
  by_cases hit : 0 < d.iters_remaining
  · rw [if_pos hit]
    rcases (List.range d.vertex_count).find?
        (fun i => !(d.vertices.getD i default).fully_connected) with _ | s <;>
      simp [hit]
  · rw [if_neg hit]
    simp [hit]

theorem iterate_of_zero {d : Diagram} (h : d.iters_remaining = 0) :
    d.iterate = (false, [d]) := by
  unfold Diagram.iterate
  rw [if_neg (by omega)]

theorem iterate_iters_le {d d' : Diagram} (h : d' ∈ (d.iterate).2) :
    d'.iters_remaining ≤ d.iters_remaining - 1 := by
  rcases mem_iterate_cases h with ⟨hz, rfl⟩ | ⟨hit, s, e, _, rfl⟩
  · omega
  · rw [grow_step_iters]

theorem diagramsPass_aux :
    ∀ (ds : List Diagram) (b : Bool) (l : List Diagram),
      ds.foldl (fun acc d => let r := d.iterate; (acc.1 || r.1, acc.2 ++ r.2)) (b, l)
        = (b || ds.any (fun d => (d.iterate).1),
            l ++ ds.flatMap (fun d => (d.iterate).2))
  | [], b, l => by simp
  | d :: ds, b, l => by
    simp only [List.foldl_cons, List.any_cons, List.flatMap_cons]
    rw [diagramsPass_aux ds]
    simp [Bool.or_assoc]

theorem diagramsPass_spec (ds : List Diagram) :
    diagramsPass ds = (ds.any (fun d => (d.iterate).1),
      ds.flatMap (fun d => (d.iterate).2)) := by
  unfold diagramsPass
  rw [diagramsPass_aux]
  simp

theorem searchLoop_inv (P : Diagram → Prop)
    (hstep : ∀ d d', d' ∈ (d.iterate).2 → P d → P d') :
    ∀ (fuel : Nat) (ds : List Diagram), (∀ d ∈ ds, P d) →
      ∀ d' ∈ searchLoop fuel ds, P d'
  | 0, ds, hds, d', hd' => hds d' hd'
  | fuel + 1, ds, hds, d', hd' => by
    unfold searchLoop at hd'
    rw [diagramsPass_spec ds] at hd'
    have hnext : ∀ x ∈ ds.flatMap (fun d => (d.iterate).2), P x := by
      intro x hx
      rw [List.mem_flatMap] at hx
      obtain ⟨d, hd, hx⟩ := hx
      exact hstep d x hx (hds d hd)
    by_cases hflag : ds.any (fun d => (d.iterate).1) = true
    · rw [if_pos hflag] at hd'
      exact searchLoop_inv P hstep fuel _ hnext d' hd'
    · rw [if_neg hflag] at hd'
      exact hnext d' hd'

theorem maxIters_mono : ∀ (ds : List Diagram) (a : Nat),
    a ≤ ds.foldl (fun m d => max m d.iters_remaining) a
  | [], a => Nat.le_refl a
  | d :: ds, a => by
    simp only [List.foldl_cons]
    exact Nat.le_trans (Nat.le_max_left _ _) (maxIters_mono ds _)

theorem le_maxIters_aux : ∀ (ds : List Diagram) (a : Nat) (d : Diagram),
    d ∈ ds → d.iters_remaining ≤ ds.foldl (fun m d => max m d.iters_remaining) a
  | [], _, _, h => absurd h (List.not_mem_nil _)
  | x :: ds, a, d, h => by
    simp only [List.foldl_cons]
    rcases List.mem_cons.mp h with rfl | h
    · exact Nat.le_trans (Nat.le_max_right _ _) (maxIters_mono ds _)
    · exact le_maxIters_aux ds _ d h

theorem le_maxIters {ds : List Diagram} {d : Diagram} (h : d ∈ ds) :
    d.iters_remaining ≤ maxIters ds :=
  le_maxIters_aux ds 0 d h

theorem maxIters_le_aux : ∀ (ds : List Diagram) (a k : Nat), a ≤ k →
    (∀ d ∈ ds, d.iters_remaining ≤ k) →
    ds.foldl (fun m d => max m d.iters_remaining) a ≤ k
  | [], a, k, ha, _ => ha
  | d :: ds, a, k, ha, h => by
    simp only [List.foldl_cons]
    exact maxIters_le_aux ds _ k
      (Nat.max_le.mpr ⟨ha, h d (List.mem_cons_self d ds)⟩)
      (fun x hx => h x (List.mem_cons_of_mem d hx))

theorem maxIters_le {ds : List Diagram} {k : Nat}
    (h : ∀ d ∈ ds, d.iters_remaining ≤ k) : maxIters ds ≤ k :=
  maxIters_le_aux ds 0 k (Nat.zero_le k) h

theorem searchLoop_iters_zero :
    ∀ (fuel : Nat) (ds : List Diagram), maxIters ds < fuel →
      ∀ d' ∈ searchLoop fuel ds, d'.iters_remaining = 0
  | 0, ds, hfuel, _, _ => absurd hfuel (Nat.not_lt_zero _)
  | fuel + 1, ds, hfuel, d', hd' => by
    unfold searchLoop at hd'
    rw [diagramsPass_spec ds] at hd'
    by_cases hflag : ds.any (fun d => (d.iterate).1) = true
    · rw [if_pos hflag] at hd'
      obtain ⟨d0, hd0, hd0t⟩ := List.any_eq_true.mp hflag
      have hd0pos : 0 < d0.iters_remaining := by
        rw [iterate_fst] at hd0t
        exact of_decide_eq_true hd0t
      have hmax1 : 1 ≤ maxIters ds := Nat.le_trans hd0pos (le_maxIters hd0)
      have hnext : maxIters (ds.flatMap (fun d => (d.iterate).2)) < fuel := by
        have : maxIters (ds.flatMap (fun d => (d.iterate).2)) ≤ maxIters ds - 1 := by
          apply maxIters_le
          intro x hx
          rw [List.mem_flatMap] at hx
          obtain ⟨d, hd, hx⟩ := hx
          exact Nat.le_trans (iterate_iters_le hx)
            (Nat.sub_le_sub_right (le_maxIters hd) 1)
        omega
      exact searchLoop_iters_zero fuel _ hnext d' hd'
    · rw [if_neg hflag] at hd'
      rw [List.mem_flatMap] at hd'
      obtain ⟨d, hd, hd'2⟩ := hd'
      have : (d.iterate).1 = false :=
        Bool.not_eq_true _ ▸
          (List.any_eq_false.mp (Bool.eq_false_iff.mpr hflag) d hd)
      rw [iterate_fst] at this
      have hz : d.iters_remaining = 0 := by
        have := of_decide_eq_false this
        omega
      rw [iterate_of_zero hz] at hd'2
      simp at hd'2
      rw [hd'2, hz]

theorem mem_initial_diagrams {cfg : Config} {d : Diagram}
    (h : d ∈ initial_diagrams cfg) :
    d.is_valid = true ∧ ∃ ivs, d = Diagram.init
      (external_vertices cfg.momenta_in cfg.momenta_out) ivs := by
  unfold initial_diagrams at h
  rw [List.mem_flatMap] at h
  obtain ⟨o, _, h⟩ := h
  rw [List.mem_filterMap] at h
  obtain ⟨perm, _, heq⟩ := h
  by_cases hv : (Diagram.init (external_vertices cfg.momenta_in cfg.momenta_out)
      (perm.map (fun cl => mkInternalVertex cl.1 cl.2))).is_valid = true
  · rw [if_pos hv] at heq
    have hd := (Option.some.injEq _ _ ▸ heq)
    exact ⟨hd ▸ hv, _, hd.symm⟩
  · rw [if_neg hv] at heq
    exact absurd heq (by simp)

theorem init_is_valid_mod {ex ivs : List Vertex}
    (h : (Diagram.init ex ivs).is_valid = true) :
    total_vertex_connections (Diagram.init ex ivs).vertices % 2 = 0 := by
  have hrfl : (Diagram.init ex ivs).is_valid
      = decide (total_vertex_connections (Diagram.init ex ivs).vertices % 2 = 0) := rfl
  rw [hrfl] at h
  exact of_decide_eq_true h

theorem init_iters_eq (ex ivs : List Vertex) :
    (Diagram.init ex ivs).iters_remaining
      = total_vertex_connections (Diagram.init ex ivs).vertices / 2 := rfl

theorem seed_handshake {cfg : Config} {d : Diagram}
    (h : d ∈ initial_diagrams cfg) :
    2 * d.lines.length + 2 * d.iters_remaining
      = total_vertex_connections d.vertices := by
  obtain ⟨hv, ivs, rfl⟩ := mem_initial_diagrams h
  have hmod := init_is_valid_mod hv
  have hlen : (Diagram.init (external_vertices cfg.momenta_in cfg.momenta_out)
      ivs).lines.length = 0 := rfl
  rw [hlen, init_iters_eq]
  omega

/-- Claim C6: for every diagram emitted by the program, twice the number of
its lines equals the sum of the slot capacities of all of its vertices. -/
theorem C6_handshake (cfg : Config) (d : Diagram) (hd : d ∈ emitted cfg) :
    2 * d.lines.length = total_vertex_connections d.vertices := by
  have hd' : d ∈ seed_search (initial_diagrams cfg) := by
    unfold emitted filtered_diagrams at hd
    exact (List.mem_filter.mp hd).1
  unfold seed_search at hd'
  have hinv : 2 * d.lines.length + 2 * d.iters_remaining
      = total_vertex_connections d.vertices := by
    refine searchLoop_inv
      (fun x => 2 * x.lines.length + 2 * x.iters_remaining
        = total_vertex_connections x.vertices) ?_ _ _
      (fun s hs => seed_handshake hs) d hd'
    intro a b hmem hP
    rcases mem_iterate_cases hmem with ⟨hz, rfl⟩ | ⟨hit, s, e, _, rfl⟩
    · exact hP
    · rw [grow_step_lines_len, grow_step_iters]
      have ht : total_vertex_connections (grow_step a s e).vertices
          = total_vertex_connections a.vertices := by
        rw [grow_step_vertices]
        exact add_line_total a s e
      rw [ht]
      omega
  have hz : d.iters_remaining = 0 :=
    searchLoop_iters_zero _ _ (by unfold searchFuel; omega) d hd'
  omega

theorem C6_handshake_witness :
    d7 ∈ emitted (cfg7 true true true) ∧
    2 * d7.lines.length = total_vertex_connections d7.vertices :=
  ⟨by decide, C6_handshake (cfg7 true true true) d7 (by decide)⟩

/-- Claim C5: every diagram emitted by the program has a positive
multiplier; zero-multiplier branches are discarded during the growth search
itself, so already the unfiltered search output is multiplier-positive. -/
theorem C5_multiplier_pos (cfg : Config) (d : Diagram) :
    (d ∈ seed_search (initial_diagrams cfg) → 0 < d.multiplier) ∧
    (d ∈ emitted cfg → 0 < d.multiplier) := by
  have hsearch : d ∈ seed_search (initial_diagrams cfg) → 0 < d.multiplier := by
    intro hd
    unfold seed_search at hd
    refine searchLoop_inv (fun x => 0 < x.multiplier) ?_ _ _ ?_ d hd
    · intro a b hmem hP
      rcases mem_iterate_cases hmem with ⟨_, rfl⟩ | ⟨_, s, e, hm, rfl⟩
      · exact hP
      · rw [grow_step_multiplier]
        exact hm
    · intro s hs
      obtain ⟨_, ivs, rfl⟩ := mem_initial_diagrams hs
      exact Nat.zero_lt_one
  refine ⟨hsearch, fun hd => hsearch ?_⟩
  unfold emitted filtered_diagrams at hd
  exact (List.mem_filter.mp hd).1

theorem C5_multiplier_pos_witness :
    d7 ∈ emitted (cfg7 true true true) ∧ 0 < d7.multiplier :=
  ⟨by decide, (C5_multiplier_pos (cfg7 true true true) d7).2 (by decide)⟩

theorem getD_set_self : ∀ (l : List Vertex) (i : Nat) (v : Vertex),
    i < l.length → (l.set i v).getD i default = v
  | [], i, v, h => absurd h (by simp)
  | x :: xs, 0, v, _ => rfl
  | x :: xs, i + 1, v, h =>
    getD_set_self xs i v (by simpa using h)

theorem getD_set_ne : ∀ (l : List Vertex) (i j : Nat) (v : Vertex),
    i ≠ j → (l.set i v).getD j default = l.getD j default
  | [], _, _, _, _ => by simp
  | x :: xs, 0, 0, v, h => absurd rfl h
  | x :: xs, 0, j + 1, v, _ => rfl
  | x :: xs, i + 1, 0, v, _ => rfl
  | x :: xs, i + 1, j + 1, v, h =>
    getD_set_ne xs i j v (by omega)

theorem getD_len_le : ∀ (l : List Vertex) (i : Nat), l.length ≤ i →
    l.getD i default = default
  | [], _, _ => by simp
  | x :: xs, 0, h => by simp at h
  | x :: xs, i + 1, h => getD_len_le xs i (by simpa using h)

theorem add_connection_of_full {v : Vertex} (h : v.fully_connected = true)
    (l : Nat) (b : Bool) : v.add_connection l b = (0, v) := by
  unfold Vertex.add_connection
  rw [h]
  simp

theorem add_connection_first {v : Vertex} {l : Nat}
    (h : v.fully_connected = false) :
    v.add_connection l false = (1, { v with lines := insert l v.lines }) := by
  unfold Vertex.add_connection
  rw [h]
  simp

theorem add_connection_second {v : Vertex} {l : Nat}
    (h : v.fully_connected = false) :
    v.add_connection l true
      = (v.total_connections - v.lines.card,
          { v with lines := insert l v.lines }) := by
  unfold Vertex.add_connection
  rw [h]
  simp

theorem fully_connected_update (v : Vertex) (X : Finset Nat) :
    ({ v with lines := X } : Vertex).fully_connected
      = decide (v.total_connections ≤ X.card) := rfl

theorem add_line_mult_eq (d : Diagram) (s e : Nat) :
    (d.add_line s e).multiplier =
      d.multiplier
        * ((d.vertices.getD s default).add_connection d.lines.length false).1
        * (((d.vertices.set s
              ((d.vertices.getD s default).add_connection d.lines.length
                false).2).getD e default).add_connection d.lines.length
            true).1 := rfl

/-- Claim C4 (amended): with a positive inherited multiplier and a fresh
line index, the child of one growth step from the pivot `s` to a candidate
`e ≥ s` has multiplier 0 — and is then absent from the children produced by
`Diagram.iterate`, while a positive-multiplier child is present — exactly
when the candidate was already saturated before the attempt, or the line is
a self-loop and the pivot had exactly one free slot left, so the first
occupation saturates it (capacity-1 vertices being the special case with an
empty slot set). -/
theorem C4_prune_iff (d : Diagram) (s e : Nat)
    (hit : 0 < d.iters_remaining)
    (hfind : (List.range d.vertex_count).find?
      (fun i => !(d.vertices.getD i default).fully_connected) = some s)
    (hse : s ≤ e) (hlt : e < d.vertex_count)
    (hfresh : d.lines.length ∉ (d.vertices.getD s default).lines)
    (hm : 0 < d.multiplier) :
    ((d.add_line s e).multiplier = 0 ↔
      ((d.vertices.getD e default).fully_connected = true ∨
        (e = s ∧ (d.vertices.getD s default).total_connections
          = (d.vertices.getD s default).lines.card + 1))) ∧
    (0 < (d.add_line s e).multiplier → grow_step d s e ∈ (d.iterate).2) ∧
    ((d.add_line s e).multiplier = 0 → grow_step d s e ∉ (d.iterate).2) := by
  have hs : (d.vertices.getD s default).fully_connected = false := by
    have h := List.find?_some hfind
    simpa using h
  have hslen : s < d.vertices.length := by
    by_contra hc
    rw [getD_len_le _ _ (by omega)] at hs
    exact absurd hs (by decide)
  have hcardlt : (d.vertices.getD s default).lines.card
      < (d.vertices.getD s default).total_connections := by
    have := of_decide_eq_false hs
    omega
  have hiff : (d.add_line s e).multiplier = 0 ↔
      ((d.vertices.getD e default).fully_connected = true ∨
        (e = s ∧ (d.vertices.getD s default).total_connections
          = (d.vertices.getD s default).lines.card + 1)) := by
    rw [add_line_mult_eq, add_connection_first hs]
    by_cases he : e = s
    · subst he
      rw [getD_set_self _ _ _ hslen]
      have hcard : (insert d.lines.length
          (d.vertices.getD e default).lines).card
          = (d.vertices.getD e default).lines.card + 1 :=
        Finset.card_insert_of_not_mem hfresh
      by_cases hsat : (d.vertices.getD e default).total_connections
          = (d.vertices.getD e default).lines.card + 1
      · have hfull : ({ d.vertices.getD e default with
            lines := insert d.lines.length (d.vertices.getD e default).lines }
              : Vertex).fully_connected = true := by
          rw [fully_connected_update, hcard]
          exact decide_eq_true (by omega)
        rw [add_connection_of_full hfull]
        exact iff_of_true (by simp) (Or.inr ⟨rfl, hsat⟩)
      · have hfull : ({ d.vertices.getD e default with
            lines := insert d.lines.length (d.vertices.getD e default).lines }
              : Vertex).fully_connected = false := by
          rw [fully_connected_update, hcard]
          exact decide_eq_false (by omega)
        rw [add_connection_second hfull]
        refine iff_of_false ?_ ?_
        · have hpos : 0 < ({ d.vertices.getD e default with
              lines := insert d.lines.length
                (d.vertices.getD e default).lines } : Vertex).total_connections
              - ({ d.vertices.getD e default with
                  lines := insert d.lines.length
                    (d.vertices.getD e default).lines } : Vertex).lines.card := by
            show 0 < (d.vertices.getD e default).total_connections
              - (insert d.lines.length (d.vertices.getD e default).lines).card
            rw [hcard]
            omega
          have hp := Nat.mul_pos (Nat.mul_pos hm Nat.one_pos) hpos
          exact fun hc => (Nat.pos_iff_ne_zero.mp hp) hc
        · rintro (hful | ⟨_, hcontra⟩)
          · rw [hful] at hs
            exact absurd hs (by decide)
          · exact hsat hcontra
    · rw [getD_set_ne _ _ _ _ (fun hc => he hc.symm)]
      by_cases hful : (d.vertices.getD e default).fully_connected = true
      · rw [add_connection_of_full hful]
        exact iff_of_true (by simp) (Or.inl hful)
      · have hful' : (d.vertices.getD e default).fully_connected = false :=
          Bool.eq_false_iff.mpr hful
        have hltc : (d.vertices.getD e default).lines.card
            < (d.vertices.getD e default).total_connections := by
          have := of_decide_eq_false hful'
          omega
        rw [add_connection_second hful']
        refine iff_of_false ?_ ?_
        · have hp := Nat.mul_pos (Nat.mul_pos hm Nat.one_pos)
            (by omega : 0 < (d.vertices.getD e default).total_connections
              - (d.vertices.getD e default).lines.card)
          exact fun hc => (Nat.pos_iff_ne_zero.mp hp) hc
        · rintro (hc | ⟨hc, _⟩)
          · exact hful hc
          · exact he hc
  refine ⟨hiff, ?_, ?_⟩
  · intro hpos
    unfold Diagram.iterate
    rw [if_pos hit, hfind]
    simp only [List.mem_filterMap]
    refine ⟨e, List.mem_range'.mpr ⟨e - s, by omega, by omega⟩, ?_⟩
    rw [if_pos hpos]
    rfl
  · intro hzero hmem
    rcases mem_iterate_cases hmem with ⟨hz, _⟩ | ⟨_, s', e', hm', heq⟩
    · omega
    · have := congrArg Diagram.multiplier heq
      rw [grow_step_multiplier, grow_step_multiplier] at this
      omega

theorem C4_prune_iff_witness :
    ((seed7.add_line 0 1).multiplier = 0 ↔
      ((seed7.vertices.getD 1 default).fully_connected = true ∨
        (1 = 0 ∧ (seed7.vertices.getD 0 default).total_connections
          = (seed7.vertices.getD 0 default).lines.card + 1))) ∧
    (0 < (seed7.add_line 0 1).multiplier →
      grow_step seed7 0 1 ∈ (seed7.iterate).2) ∧
    ((seed7.add_line 0 1).multiplier = 0 →
      grow_step seed7 0 1 ∉ (seed7.iterate).2) :=
  C4_prune_iff seed7 0 1 (by decide) (by decide) (by decide) (by decide)
    (by decide) (by decide)

/-- Claim C7: with one incoming and one outgoing capacity-1 external vertex,
empty catalog and order 0, the program emits exactly one diagram, printed
without multiplier prefix, whatever the three filter switches are. -/
theorem C7_parity_boundary : ∀ (a b c : Bool),
    program_output (cfg7 a b c) = ["⟨\x7bp1,-q1\x7d⟩"] ∧
    (emitted (cfg7 a b c)).map Diagram.multiplier = [1] := by decide

/-- Claim C8: every seed diagram handed to the growth search has an even
total slot count (odd seeds are marked invalid and dropped), and with one
incoming capacity-1 external vertex only, the program emits nothing. -/
theorem C8_odd_total :
    (∀ (cfg : Config) (d : Diagram), d ∈ initial_diagrams cfg →
      total_vertex_connections d.vertices % 2 = 0) ∧
    (∀ (a b c : Bool), initial_diagrams (cfg8 a b c) = [] ∧
      program_output (cfg8 a b c) = []) := by
  constructor
  · intro cfg d hd
    obtain ⟨hv, ivs, rfl⟩ := mem_initial_diagrams hd
    exact init_is_valid_mod hv
  · decide

theorem C8_odd_total_witness :
    seed7 ∈ initial_diagrams (cfg7 true true true) ∧
    total_vertex_connections seed7.vertices % 2 = 0 :=
  ⟨by decide, C8_odd_total.1 (cfg7 true true true) seed7 (by decide)⟩

/-- Claim C9: the full-connectivity filter accepts exactly the diagrams
whose component from vertex 0 covers every vertex, and with four capacity-1
external vertices, empty catalog, order 0 and that filter enabled, the
program emits nothing — every one of the complete matchings produced by the
search is disconnected. -/
theorem C9_full_connectivity :
    (∀ d : Diagram, d.is_fully_connected = true ↔
      (0 < d.vertices.length ∧
        (graph_connected_vertices d 0).card = d.vertices.length)) ∧
    (∀ a c : Bool,
      program_output (cfg9 a c) = [] ∧
      (seed_search (initial_diagrams (cfg9 a c))).all
        (fun d => !d.is_fully_connected) = true ∧
      (seed_search (initial_diagrams (cfg9 a c))).length = 3) := by
  constructor
  · intro d
    unfold Diagram.is_fully_connected
    by_cases h : d.vertices.length = 0
    · rw [if_pos h]
      simp [h]
    · rw [if_neg h]
      simp only [decide_eq_true_eq]
      constructor
      · intro hc
        exact ⟨Nat.pos_of_ne_zero h, hc⟩
      · rintro ⟨_, hc⟩
        exact hc
  · decide

/-- Claim C1 (code bug): the second occupation of a self-loop re-adds the
same line object to the Python set `Vertex.lines`, so the occupied-slot
count stays 1 instead of increasing to 2: on the capacity-4 vertex (index
4) of the order-1 seed, `add_line 4 4` leaves one recorded slot although
the vertex was unsaturated at both occupations. -/
theorem C1_selfloop_one_slot_bug :
    (seedC3.vertices.getD 4 default).lines.card = 0 ∧
    (seedC3.vertices.getD 4 default).fully_connected = false ∧
    ((seedC3.add_line 4 4).vertices.getD 4 default).lines.card = 1 ∧
    ((seedC3.add_line 4 4).vertices.getD 4 default).fully_connected = false ∧
    (seedC3.add_line 4 4).multiplier = 3 := by decide

/-- Claim C2 (code bug): a diagram reachable by the growth search holds a
self-loop plus three further lines on a capacity-4 vertex, consuming 5
half-edges — the slot capacity is exceeded. -/
theorem C2_capacity_exceeded_bug :
    seedC2 ∈ initial_diagrams cfgC2 ∧
    Reach seedC2 badC2 ∧
    badC2.iters_remaining = 0 ∧
    endpoint_count badC2 4 = 5 ∧
    (badC2.vertices.getD 4 default).total_connections = 4 := by
  refine ⟨by decide, ?_, by decide, by decide, by decide⟩
  have h1 : DStep seedC2 c2s1 := by decide
  have h2 : DStep c2s1 c2s2 := by decide
  have h3 : DStep c2s2 c2s3 := by decide
  have h4 : DStep c2s3 c2s4 := by decide
  have h5 : DStep c2s4 c2s5 := by decide
  have h6 : DStep c2s5 badC2 := by decide
  exact Reach.tail (Reach.tail (Reach.tail (Reach.tail (Reach.tail
    (Reach.tail (Reach.refl _) h1) h2) h3) h4) h5) h6

/-- Claim C3 (code bug): a diagram reachable by the growth search from a
seed of the enumerator reaches `iters_remaining = 0` — and is returned
unchanged as complete — while its capacity-4 vertex holds only 2 recorded
lines (two self-loops), so not every vertex is saturated. -/
theorem C3_unsaturated_complete_bug :
    seedC3 ∈ initial_diagrams cfgC3 ∧
    Reach seedC3 badC3 ∧
    badC3.iters_remaining = 0 ∧
    badC3.iterate = (false, [badC3]) ∧
    (badC3.vertices.getD 4 default).fully_connected = false ∧
    (badC3.vertices.getD 4 default).lines.card = 2 ∧
    (badC3.vertices.getD 4 default).total_connections = 4 := by
  refine ⟨by decide, ?_, by decide, by decide, by decide, by decide, by decide⟩
  have h1 : DStep seedC3 c3s1 := by decide
  have h2 : DStep c3s1 c3s2 := by decide
  have h3 : DStep c3s2 c3s3 := by decide
  have h4 : DStep c3s3 badC3 := by decide
  exact Reach.tail (Reach.tail (Reach.tail (Reach.tail
    (Reach.refl _) h1) h2) h3) h4

/-- Claim C4 (counterexample): on a reachable diagram whose pivot is a
capacity-3 vertex with one free slot left, the self-loop child is discarded
(multiplier 0) although the candidate was not saturated before the attempt
and its capacity is 3, not 1 — refuting the claimed "exactly when". -/
theorem C4_prune_cex :
    seedC4 ∈ initial_diagrams cfgC4 ∧
    Reach seedC4 c4d ∧
    0 < c4d.iters_remaining ∧
    (List.range c4d.vertex_count).find?
      (fun i => !(c4d.vertices.getD i default).fully_connected) = some 4 ∧
    (c4d.add_line 4 4).multiplier = 0 ∧
    grow_step c4d 4 4 ∉ (c4d.iterate).2 ∧
    (c4d.vertices.getD 4 default).fully_connected = false ∧
    (c4d.vertices.getD 4 default).total_connections = 3 := by
  refine ⟨by decide, ?_, by decide, by decide, by decide, by decide,
    by decide, by decide⟩
  have h1 : DStep seedC4 c4s1 := by decide
  have h2 : DStep c4s1 c4s2 := by decide
  have h3 : DStep c4s2 c4s3 := by decide
  have h4 : DStep c4s3 c4d := by decide
  exact Reach.tail (Reach.tail (Reach.tail (Reach.tail
    (Reach.refl _) h1) h2) h3) h4

theorem strip_fully (v : Vertex) :
    (strip_vertex v).fully_connected = v.fully_connected := rfl

theorem strip_vertex_update (v : Vertex) (X : Finset Nat) :
    strip_vertex { v with lines := X } = { strip_vertex v with lines := X } := rfl

theorem strip_vertex_default : strip_vertex default = default := rfl

theorem strip_add_connection (v : Vertex) (l : Nat) (b : Bool) :
    (strip_vertex v).add_connection l b
      = ((v.add_connection l b).1, strip_vertex (v.add_connection l b).2) := by
  by_cases h : v.fully_connected = true
  · rw [add_connection_of_full h, add_connection_of_full ((strip_fully v).trans h)]
  · have hf : v.fully_connected = false := Bool.eq_false_iff.mpr h
    have hf' : (strip_vertex v).fully_connected = false := (strip_fully v).trans hf
    cases b
    · rw [add_connection_first hf, add_connection_first hf']
      rfl
    · rw [add_connection_second hf, add_connection_second hf']
      rfl

theorem getD_map_strip : ∀ (l : List Vertex) (i : Nat),
    (l.map strip_vertex).getD i default = strip_vertex (l.getD i default)
  | [], i => by cases i <;> rfl
  | x :: xs, 0 => rfl
  | x :: xs, i + 1 => getD_map_strip xs i

theorem set_map_strip : ∀ (l : List Vertex) (i : Nat) (v : Vertex),
    (l.map strip_vertex).set i (strip_vertex v) = (l.set i v).map strip_vertex
  | [], _, _ => rfl
  | x :: xs, 0, v => rfl
  | x :: xs, i + 1, v => by
    simp only [List.map_cons, List.set_cons_succ]
    rw [set_map_strip xs i v]

theorem strip_add_line (d : Diagram) (s e : Nat) :
    (strip_diagram d).add_line s e = strip_diagram (d.add_line s e) := by
  unfold Diagram.add_line strip_diagram
  simp only [getD_map_strip, strip_add_connection, set_map_strip]

theorem strip_grow_step (d : Diagram) (s e : Nat) :
    grow_step (strip_diagram d) s e = strip_diagram (grow_step d s e) := by
  unfold grow_step
  rw [strip_add_line]
  rfl

theorem strip_multiplier (d : Diagram) :
    (strip_diagram d).multiplier = d.multiplier := rfl

theorem strip_iterate (d : Diagram) :
    (strip_diagram d).iterate
      = ((d.iterate).1, (d.iterate).2.map strip_diagram) := by
  have hpred : (fun i =>
      !((strip_diagram d).vertices.getD i default).fully_connected)
      = (fun i => !(d.vertices.getD i default).fully_connected) := by
    funext i
    rw [show (strip_diagram d).vertices = d.vertices.map strip_vertex from rfl,
      getD_map_strip, strip_fully]
  have hvc : (strip_diagram d).vertex_count = d.vertex_count := rfl
  have hit : (strip_diagram d).iters_remaining = d.iters_remaining := rfl
  unfold Diagram.iterate
  rw [hvc, hit, hpred]
  by_cases h : 0 < d.iters_remaining
  · rw [if_pos h, if_pos h]
    rcases hf : (List.range d.vertex_count).find?
        (fun i => !(d.vertices.getD i default).fully_connected) with _ | s
    · rfl
    · simp only
      rw [List.map_filterMap]
      refine congrArg (Prod.mk true) ?_
      congr 1
      funext e
      rw [strip_add_line]
      have hm : (strip_diagram (d.add_line s e)).multiplier
          = (d.add_line s e).multiplier := rfl
      rw [hm]
      by_cases hc : 0 < (d.add_line s e).multiplier
      · rw [if_pos hc, if_pos hc]
        rfl
      · rw [if_neg hc, if_neg hc]
        rfl
  · rw [if_neg h, if_neg h]
    rfl

theorem strip_diagramsPass (ds : List Diagram) :
    diagramsPass (ds.map strip_diagram)
      = ((diagramsPass ds).1, (diagramsPass ds).2.map strip_diagram) := by
  rw [diagramsPass_spec, diagramsPass_spec]
  refine congrArg₂ Prod.mk ?_ ?_
  · rw [List.any_map]
    congr 1
    funext d
    show ((strip_diagram d).iterate).1 = _
    rw [strip_iterate]
  · rw [List.flatMap_map, List.map_flatMap]
    congr 1
    funext d
    show ((strip_diagram d).iterate).2 = _
    rw [strip_iterate]

theorem strip_searchLoop : ∀ (fuel : Nat) (ds : List Diagram),
    searchLoop fuel (ds.map strip_diagram)
      = (searchLoop fuel ds).map strip_diagram
  | 0, ds => rfl
  | fuel + 1, ds => by
    unfold searchLoop
    rw [strip_diagramsPass]
    by_cases h : (diagramsPass ds).1 = true
    · rw [if_pos h, if_pos h]
      exact strip_searchLoop fuel _
    · rw [if_neg h, if_neg h]

theorem strip_maxIters (ds : List Diagram) :
    maxIters (ds.map strip_diagram) = maxIters ds := by
  unfold maxIters
  rw [List.foldl_map]
  rfl

theorem strip_seed_search (ds : List Diagram) :
    seed_search (ds.map strip_diagram) = (seed_search ds).map strip_diagram := by
  unfold seed_search searchFuel
  rw [strip_maxIters, strip_searchLoop]

theorem strip_line_sharing (d : Diagram) (i : Nat) :
    line_sharing_vertices (strip_diagram d) i = line_sharing_vertices d i := by
  unfold line_sharing_vertices
  rw [show (strip_diagram d).vertices = d.vertices.map strip_vertex from rfl,
    getD_map_strip]
  rfl

theorem strip_neighbor (d : Diagram) (v : Nat) :
    neighbor_list (strip_diagram d) v = neighbor_list d v := by
  unfold neighbor_list
  rw [show (strip_diagram d).vertices = d.vertices.map strip_vertex from rfl,
    List.length_map]
  congr 1
  funext j
  rw [strip_line_sharing]

theorem strip_gcv_pass (d : Diagram) (frontier : List Nat)
    (st : Finset Nat × List Nat × Bool) :
    gcv_pass (strip_diagram d) frontier st = gcv_pass d frontier st := by
  unfold gcv_pass
  congr 1
  funext st v
  rw [strip_neighbor]

theorem strip_gcv_loop (d : Diagram) : ∀ (fuel : Nat) (frontier : List Nat)
    (traversed : Finset Nat),
    gcv_loop (strip_diagram d) fuel frontier traversed
      = gcv_loop d fuel frontier traversed
  | 0, _, _ => rfl
  | fuel + 1, frontier, traversed => by
    unfold gcv_loop
    rw [strip_gcv_pass]
    by_cases h : (gcv_pass d frontier (traversed, [], false)).2.2 = true
    · rw [if_pos h, if_pos h]
      exact strip_gcv_loop d fuel _ _
    · rw [if_neg h, if_neg h]

theorem strip_gcv (d : Diagram) (i : Nat) :
    graph_connected_vertices (strip_diagram d) i
      = graph_connected_vertices d i := by
  unfold graph_connected_vertices
  rw [show (strip_diagram d).vertices = d.vertices.map strip_vertex from rfl,
    List.length_map, strip_gcv_loop]

theorem strip_is_ext (v : Vertex) :
    is_external_vertex (strip_vertex v) = is_external_vertex v := by
  rcases v with ⟨t, ls, p⟩
  cases p <;> rfl

theorem strip_has_loop (d : Diagram) :
    (strip_diagram d).has_one_vertex_loop = d.has_one_vertex_loop := rfl

theorem strip_vacuum (d : Diagram) :
    (strip_diagram d).has_vacuum_piece = d.has_vacuum_piece := by
  unfold Diagram.has_vacuum_piece
  rw [show (strip_diagram d).vertices = d.vertices.map strip_vertex from rfl,
    List.length_map]
  congr 1
  funext i
  have hext : ∀ j : Nat,
      is_external_vertex ((d.vertices.map strip_vertex).getD j default)
        = is_external_vertex (d.vertices.getD j default) := by
    intro j
    rw [getD_map_strip, strip_is_ext]
  simp only [strip_gcv d i, hext]

theorem strip_fully_connected_diagram (d : Diagram) :
    (strip_diagram d).is_fully_connected = d.is_fully_connected := by
  unfold Diagram.is_fully_connected
  rw [show (strip_diagram d).vertices = d.vertices.map strip_vertex from rfl,
    List.length_map, strip_gcv]

theorem strip_filtered (cfg : Config) (ds : List Diagram) :
    filtered_diagrams cfg (ds.map strip_diagram)
      = (filtered_diagrams cfg ds).map strip_diagram := by
  unfold filtered_diagrams
  rw [List.filter_map]
  congr 1
  refine List.filter_congr ?_
  intro d _
  simp only [Function.comp_apply]
  rw [strip_has_loop, strip_fully_connected_diagram, strip_vacuum]

theorem strip_set_label (v : Vertex) (s : String) :
    strip_vertex (set_label v s) = strip_vertex v := by
  rcases v with ⟨t, ls, p⟩
  cases p <;> rfl

theorem strip_relabel_pass : ∀ (vs : List Vertex) (cd ld : List (String × Nat)),
    (relabel_pass cd ld vs).map strip_vertex = vs.map strip_vertex
  | [], _, _ => rfl
  | v :: vs, cd, ld => by
    unfold relabel_pass
    by_cases h : 1 < (dictGet cd (vertex_label v)).getD 0
    · rw [if_pos h]
      simp only [List.map_cons]
      rw [strip_set_label, strip_relabel_pass vs]
    · rw [if_neg h]
      simp only [List.map_cons]
      rw [strip_relabel_pass vs]

theorem strip_mkDist (ivs : List Vertex) :
    (make_internal_vertices_distinguishable ivs).map strip_vertex
      = ivs.map strip_vertex := by
  unfold make_internal_vertices_distinguishable
  exact strip_relabel_pass ivs _ _

theorem total_map_strip (vs : List Vertex) :
    total_vertex_connections (vs.map strip_vertex)
      = total_vertex_connections vs := by
  rw [tvc_eq_sum, tvc_eq_sum, List.map_map]
  rfl

theorem strip_init (ex ivs : List Vertex) :
    strip_diagram (Diagram.init ex ivs)
      = strip_diagram (Diagram.init_raw ex ivs) := by
  have hv : (ex ++ make_internal_vertices_distinguishable ivs).map strip_vertex
      = (ex ++ ivs).map strip_vertex := by
    rw [List.map_append, List.map_append, strip_mkDist]
  have hlen : (ex ++ make_internal_vertices_distinguishable ivs).length
      = (ex ++ ivs).length := by
    have := congrArg List.length hv
    simpa using this
  have htot : total_vertex_connections
      (ex ++ make_internal_vertices_distinguishable ivs)
      = total_vertex_connections (ex ++ ivs) := by
    rw [← total_map_strip, hv, total_map_strip]
  unfold Diagram.init Diagram.init_raw strip_diagram
  simp only [hv, hlen, htot]

theorem init_iters_eq_raw (ex ivs : List Vertex) :
    (Diagram.init ex ivs).iters_remaining
      = (Diagram.init_raw ex ivs).iters_remaining := by
  have := congrArg Diagram.iters_remaining (strip_init ex ivs)
  exact this

/-- Claim C10: the display disambiguation pass rewrites only internal
labels, so running the growth search and the filters on a seed built with
the disambiguated labels versus the same seed with its original labels
yields lists of diagrams that agree after erasing internal labels — in
particular the same length, the same line structure, the same multipliers,
and the same filter accept/reject outcomes; only label text differs. -/
theorem C10_display_pass (cfg : Config) (ex ivs : List Vertex) :
    (seed_search [Diagram.init ex ivs]).map strip_diagram
      = (seed_search [Diagram.init_raw ex ivs]).map strip_diagram ∧
    (filtered_diagrams cfg (seed_search [Diagram.init ex ivs])).map
        strip_diagram
      = (filtered_diagrams cfg (seed_search [Diagram.init_raw ex ivs])).map
          strip_diagram ∧
    (filtered_diagrams cfg (seed_search [Diagram.init ex ivs])).map
        (fun d => (d.lines, d.multiplier))
      = (filtered_diagrams cfg (seed_search [Diagram.init_raw ex ivs])).map
          (fun d => (d.lines, d.multiplier)) := by
  have hsearch : (seed_search [Diagram.init ex ivs]).map strip_diagram
      = (seed_search [Diagram.init_raw ex ivs]).map strip_diagram := by
    rw [← strip_seed_search, ← strip_seed_search]
    simp only [List.map_cons, List.map_nil]
    rw [strip_init]
  have hfilt : (filtered_diagrams cfg (seed_search [Diagram.init ex ivs])).map
      strip_diagram
      = (filtered_diagrams cfg
          (seed_search [Diagram.init_raw ex ivs])).map strip_diagram := by
    rw [← strip_filtered, ← strip_filtered, hsearch]
  have hproj : ∀ (l : List Diagram),
      l.map (fun d => (d.lines, d.multiplier))
        = (l.map strip_diagram).map (fun d => (d.lines, d.multiplier)) := by
    intro l
    rw [List.map_map]
    rfl
  refine ⟨hsearch, hfilt, ?_⟩
  rw [hproj (filtered_diagrams cfg (seed_search [Diagram.init ex ivs])), hfilt,
    ← hproj]
